import Mathlib

/-!
Verification of the command-building and execution core of a small
FFmpeg-based video editor (two source files: `main.py`, `video_merge.py`).

The embedding models, from the source:
* `MergeDemuxerJob.build_commands` (fast merge, concat demuxer),
* `MergeFilterJob.build_commands` (re-encode merge, concat filter),
* `RecodeJob.build_commands` (transcode; CRF, 2-Pass and copy video modes),
* `BaseMediaJob.cleanup` (temp file and 2-pass log file removal),
* `GenericFFmpegWorker.run` / `stop` (sequential pass execution with
  progress/error/finished signals, a cooperative stop flag and a
  finally-guarded cleanup step).

Filesystem and process effects are made explicit: the demuxer job returns
the lines it writes to its list file; the executor is parameterised by a
per-pass environment (exit code, output lines, exception, and the value the
shared stop flag had at each of the code's read points) and returns the
ordered list of emitted events.
-/

namespace VideoEditor

/-- A single quote character, used by the concat list file syntax. -/
def squote : String := String.singleton (Char.ofNat 39)

namespace MergeDemuxerJob

/-- One line of the generated concat list file
(`temp_list_file.write(f"file '{safe_path}'\n")` with
`safe_path = file_path.replace(os.sep, '/')`).  `osSep` is `os.sep`. -/
def listFileLine (osSep : String) (p : String) : String :=
  "file " ++ squote ++ (p.replace osSep "/") ++ squote

/-- Observable result of `MergeDemuxerJob.build_commands`: the commands it
returns, the lines it writes into the transient list file, and the
`temp_file_name` attribute it records. -/
structure BuildResult where
  commands : List (List String)
  listFileLines : List String
  temp_file_name : Option String
  deriving DecidableEq

/-- `MergeDemuxerJob.build_commands` (main.py lines 60-74).  `tmpName` is
the name the `tempfile` module hands out for the transient list file. -/
def build_commands (file_list : List String) (output_file : String)
    (osSep : String) (tmpName : String) : BuildResult :=
  { commands := [["ffmpeg", "-f", "concat", "-safe", "0",
                  "-i", tmpName,
                  "-c", "copy", "-y", output_file]],
    listFileLines := file_list.map (listFileLine osSep),
    temp_file_name := some tmpName }

end MergeDemuxerJob

namespace MergeFilterJob

def TARGET_WIDTH : Nat := 1920
def TARGET_HEIGHT : Nat := 1080
def TARGET_SAR : String := "1"
def TARGET_AUDIO_RATE : String := "44100"
def TARGET_AUDIO_LAYOUT : String := "stereo"

/-- The video-normalization filter step for input `i` (main.py lines 93-94). -/
def videoFilter (i : Nat) : String :=
  "[" ++ toString i ++ ":v]scale=" ++ toString TARGET_WIDTH ++ ":" ++
    toString TARGET_HEIGHT ++ ":force_original_aspect_ratio=decrease," ++
    "pad=" ++ toString TARGET_WIDTH ++ ":" ++ toString TARGET_HEIGHT ++
    ":(ow-iw)/2:(oh-ih)/2,setsar=" ++ TARGET_SAR ++
    "[v" ++ toString i ++ "]"

/-- The audio-normalization filter step for input `i` (main.py line 96). -/
def audioFilter (i : Nat) : String :=
  "[" ++ toString i ++ ":a]aformat=sample_rates=" ++ TARGET_AUDIO_RATE ++
    ":channel_layouts=" ++ TARGET_AUDIO_LAYOUT ++
    "[a" ++ toString i ++ "]"

/-- `input_args`, built by `input_args.extend(['-i', self.file_list[i]])`
over the inputs in order. -/
def inputArgs (file_list : List String) : List String :=
  file_list.foldl (fun acc f => acc ++ ["-i", f]) []

/-- `filter_parts` after the loop: a video and an audio normalization step
appended per input, in input order. -/
def filterParts (n : Nat) : List String :=
  (List.range n).foldl (fun acc i => acc ++ [videoFilter i, audioFilter i]) []

/-- `concat_inputs`, built by `concat_inputs += f"[v{i}][a{i}]"`. -/
def concatInputs (n : Nat) : String :=
  (List.range n).foldl
    (fun acc i => acc ++ ("[v" ++ toString i ++ "][a" ++ toString i ++ "]")) ""

/-- `concat_filter = f"{concat_inputs}concat=n={file_count}:v=1:a=1[v][a]"`. -/
def concatFilter (n : Nat) : String :=
  concatInputs n ++ "concat=n=" ++ toString n ++ ":v=1:a=1[v][a]"

/-- `filter_string = ";".join(filter_parts)` after `filter_parts.append(concat_filter)`. -/
def filterString (n : Nat) : String :=
  String.intercalate ";" (filterParts n ++ [concatFilter n])

/-- `MergeFilterJob.build_commands` (main.py lines 82-108). -/
def build_commands (file_list : List String) (output_file : String) :
    List (List String) :=
  [ ["ffmpeg"] ++ inputArgs file_list ++
    ["-filter_complex", filterString file_list.length,
     "-map", "[v]", "-map", "[a]", "-y",
     "-c:v", "libx264", "-preset", "medium", "-crf", "23",
     "-c:a", "aac", "-b:a", "128k",
     output_file] ]

end MergeFilterJob

/-- Configuration of a `RecodeJob` (main.py lines 112-133).  The constructor
strips the scale expression; see `RecodeJob.init`. -/
structure RecodeJob where
  input_file : String
  output_file : String
  v_codec : String
  v_mode : String
  v_crf : String
  v_preset : String
  v_bitrate : String
  a_codec : String
  a_mode : String
  a_bitrate : String
  a_qscale : String
  scale : String
  deriving DecidableEq

/-- `RecodeJob.__init__`: all fields stored as given except
`self.scale = scale.strip()`. -/
def RecodeJob.init (input_file output_file v_codec v_mode v_crf v_preset
    v_bitrate a_codec a_mode a_bitrate a_qscale scale : String) : RecodeJob :=
  ⟨input_file, output_file, v_codec, v_mode, v_crf, v_preset, v_bitrate,
   a_codec, a_mode, a_bitrate, a_qscale, scale.trim⟩

/-- `base_cmd = ['ffmpeg', '-y', '-i', self.input_file]`. -/
def RecodeJob.base_cmd (j : RecodeJob) : List String :=
  ["ffmpeg", "-y", "-i", j.input_file]

/-- `audio_opts` (main.py lines 144-155).  Python truthiness of a string is
non-emptiness. -/
def RecodeJob.audio_opts (j : RecodeJob) : List String :=
  if j.a_codec = "copy" then
    ["-c:a", "copy"]
  else if j.a_codec = "libmp3lame" then
    ["-c:a", "libmp3lame"] ++
      (if j.a_mode = "VBR" then ["-q:a", j.a_qscale]
       else ["-b:a", j.a_bitrate])
  else
    ["-c:a", j.a_codec] ++
      (if j.a_bitrate ≠ "" then ["-b:a", j.a_bitrate] else [])

/-- `filter_opts` (main.py lines 158-159). -/
def RecodeJob.filter_opts (j : RecodeJob) : List String :=
  if j.scale ≠ "" then ["-vf", "scale=" ++ j.scale] else []

/-- `video_opts` in the CRF branch (main.py lines 164-167). -/
def RecodeJob.video_opts_crf (j : RecodeJob) : List String :=
  ["-c:v", j.v_codec] ++
    (if j.v_codec = "libx264" ∨ j.v_codec = "libx265" then
      (if j.v_crf ≠ "" then ["-crf", j.v_crf] else []) ++
      (if j.v_preset ≠ "" then ["-preset", j.v_preset] else [])
     else [])

/-- `video_opts` in the 2-Pass branch (main.py lines 175-179). -/
def RecodeJob.video_opts_two_pass (j : RecodeJob) : List String :=
  ["-c:v", j.v_codec] ++
    (if j.v_bitrate ≠ "" then ["-b:v", j.v_bitrate] else []) ++
    (if j.v_preset ≠ "" then ["-preset", j.v_preset] else [])

/-- `null_device = 'NUL' if os.name == 'nt' else '/dev/null'` (main.py
line 185); the platform is fixed at command-build time. -/
def null_device (isWindows : Bool) : String :=
  if isWindows then "NUL" else "/dev/null"

/-- Pass 1 of the 2-Pass branch (main.py lines 186-187). -/
def RecodeJob.pass1_cmd (j : RecodeJob) (isWindows : Bool) : List String :=
  j.base_cmd ++ j.video_opts_two_pass ++ j.filter_opts ++
    ["-pass", "1", "-an", "-f", "null", null_device isWindows]

/-- Pass 2 of the 2-Pass branch (main.py lines 193-194). -/
def RecodeJob.pass2_cmd (j : RecodeJob) : List String :=
  j.base_cmd ++ j.video_opts_two_pass ++ j.audio_opts ++ j.filter_opts ++
    ["-pass", "2", j.output_file]

/-- `RecodeJob.build_commands` (main.py lines 135-202). -/
def RecodeJob.build_commands (j : RecodeJob) (isWindows : Bool) :
    List (List String) :=
  if j.v_mode = "CRF" then
    [j.base_cmd ++ j.video_opts_crf ++ j.audio_opts ++ j.filter_opts ++
      [j.output_file]]
  else if j.v_mode = "2-Pass" then
    [j.pass1_cmd isWindows, j.pass2_cmd]
  else
    [j.base_cmd ++ ["-c:v", "copy"] ++ j.audio_opts ++ j.filter_opts ++
      [j.output_file]]

/-! ## Executor (`GenericFFmpegWorker`, main.py lines 206-276)

The worker emits three Qt signals (`progress_signal`, `error_signal`,
`finished_signal`), launches one child process per pass, and calls
`self.job.cleanup()` in a `finally` block.  We model one `run()` call as
the ordered list of observable events it produces.  The shared stop flag
`_is_stopped` is set from another thread; the code reads it at fixed
program points, so the model takes, for every pass, the value the flag had
at each read point (a monotone flag yields monotone values; theorems state
the monotonicity they need as hypotheses). -/

/-- An observable action of one `GenericFFmpegWorker.run()` call. -/
inductive Event where
  | progress (msg : String)
  | launch (passNum : Nat) (cmd : List String)
  | failure (msg : String)
  | success (msg : String)
  | cleanupCall
  deriving DecidableEq

/-- `f"\n--- Pass {pass_num} / {total_passes} 시작 ---"` (line 231). -/
def passStartMsg (n total : Nat) : String :=
  "\n--- Pass " ++ toString n ++ " / " ++ toString total ++ " 시작 ---"

/-- `f"실행 명령어: {' '.join(command)}"` (line 232). -/
def commandMsg (cmd : List String) : String :=
  "실행 명령어: " ++ String.intercalate " " cmd

/-- `f"FFmpeg 작업 실패 (Pass {pass_num}). (Return code: {returncode})"` (line 252). -/
def failMsg (n : Nat) (rc : Int) : String :=
  "FFmpeg 작업 실패 (Pass " ++ toString n ++ "). (Return code: " ++
    toString rc ++ ")"

/-- `f"Pass {pass_num} 중단됨."` (line 256). -/
def stoppedMsg (n : Nat) : String :=
  "Pass " ++ toString n ++ " 중단됨."

/-- `f"작업 실행 중 예외 발생: {str(e)}"` (line 265). -/
def excMsg (e : String) : String :=
  "작업 실행 중 예외 발생: " ++ e

/-- `f"작업 완료! 파일이 {self.job.output_file}에 저장되었습니다."` (line 261). -/
def doneMsg (output_file : String) : String :=
  "작업 완료! 파일이 " ++ output_file ++ "에 저장되었습니다."

/-- `f"\n--- 정리 작업 ---\n{cleanup_msg}"` (line 270). -/
def cleanupMsgWrap (m : String) : String :=
  "\n--- 정리 작업 ---\n" ++ m

/-- Where, within one pass, the environment raises an exception:
at `subprocess.Popen` itself, or while fetching output line `j`
(0-based) from the child's merged stdout. -/
inductive ExcPoint where
  | atLaunch
  | atRead (j : Nat)
  deriving DecidableEq

/-- The environment of one pass: the child's behaviour and the value of
the shared `_is_stopped` flag at each point where `run()` reads it. -/
structure PassEnv where
  /-- flag value at the loop-head check (line 227) -/
  stopAtLoopHead : Bool
  /-- lines the child writes to its merged stdout -/
  lines : List String
  /-- first line index whose pre-emit check (line 244) reads the flag as
  set; `none` if every check reads it unset -/
  stopAtLine : Option Nat
  /-- an exception raised while launching or communicating, if any -/
  exc : Option (ExcPoint × String)
  /-- `process.returncode` after `wait()` -/
  exitCode : Int
  /-- flag value at the return-code check (line 251) -/
  stopAtRcCheck : Bool
  /-- flag value at the post-pass stop check (line 255) -/
  stopAtFinalCheck : Bool
  /-- flag value at the exception-handler check (line 264) -/
  stopAtExcCheck : Bool
  deriving DecidableEq

/-- The stop flag was never observed set during this pass. -/
def PassEnv.noStop (e : PassEnv) : Prop :=
  e.stopAtLoopHead = false ∧ e.stopAtLine = none ∧ e.stopAtRcCheck = false ∧
    e.stopAtFinalCheck = false ∧ e.stopAtExcCheck = false

/-- A pass that ran to successful completion: no stop observed, no
exception, exit code 0. -/
def PassEnv.clean (e : PassEnv) : Prop :=
  e.noStop ∧ e.exc = none ∧ e.exitCode = 0

/-- Number of lines emitted by the line-consumption loop (lines 243-246)
before it stops: the check before line `stopAtLine` reads the flag set and
breaks; otherwise all lines are read. -/
def PassEnv.stopCut (e : PassEnv) : Nat :=
  match e.stopAtLine with
  | some k => k
  | none => e.lines.length

/-- `self.progress_signal.emit(line.strip())` for each consumed line. -/
def lineEvents (lines : List String) : List Event :=
  lines.map (fun l => Event.progress l.trim)

/-- The `except` handler (lines 263-265): report the exception as a
failure unless the stop flag is set. -/
def excTail (stoppedAtCheck : Bool) (e : String) : List Event :=
  if stoppedAtCheck then [] else [Event.failure (excMsg e)]

/-- Lines 250-257, after `process.wait()`: fail the whole run on a
non-zero exit (unless stopped), stop quietly when the flag is set,
otherwise continue with the next pass.  The `Bool` is `true` when the
loop continues. -/
def afterWaitEvents (e : PassEnv) (n : Nat) : List Event × Bool :=
  if e.stopAtRcCheck = false ∧ e.exitCode ≠ 0 then
    ([Event.failure (failMsg n e.exitCode)], false)
  else if e.stopAtFinalCheck then
    ([Event.progress (stoppedMsg n)], false)
  else
    ([], true)

/-- One loop iteration after the loop-head stop check (lines 230-257):
the two progress messages, the `Popen` launch, line consumption, and the
post-wait checks.  The `Bool` is `true` when the loop continues to the
next pass. -/
def runPass (cmd : List String) (e : PassEnv) (n total : Nat) :
    List Event × Bool :=
  let pre := [Event.progress (passStartMsg n total),
              Event.progress (commandMsg cmd)]
  match e.exc with
  | some (ExcPoint.atLaunch, m) =>
      (pre ++ excTail e.stopAtExcCheck m, false)
  | some (ExcPoint.atRead j, m) =>
      if j ≤ e.stopCut ∧ j ≤ e.lines.length then
        (pre ++ Event.launch n cmd ::
          (lineEvents (e.lines.take j) ++ excTail e.stopAtExcCheck m), false)
      else
        let r := afterWaitEvents e n
        (pre ++ Event.launch n cmd ::
          (lineEvents (e.lines.take e.stopCut) ++ r.1), r.2)
  | none =>
      let r := afterWaitEvents e n
      (pre ++ Event.launch n cmd ::
        (lineEvents (e.lines.take e.stopCut) ++ r.1), r.2)

/-- The pass loop plus the final success check (lines 226-261).  `i` is
the 0-based index of the first remaining pass, `env i` its environment,
`stopAtEnd` the flag value at the post-loop check (line 260). -/
def runLoop (cmds : List (List String)) (env : Nat → PassEnv)
    (i total : Nat) (stopAtEnd : Bool) (output_file : String) : List Event :=
  match cmds with
  | [] =>
      if stopAtEnd then [] else [Event.success (doneMsg output_file)]
  | cmd :: rest =>
      if (env i).stopAtLoopHead then
        if stopAtEnd then [] else [Event.success (doneMsg output_file)]
      else
        let r := runPass cmd (env i) (i + 1) total
        if r.2 then r.1 ++ runLoop rest env (i + 1) total stopAtEnd output_file
        else r.1

/-- The `finally` block (lines 266-270): `self.job.cleanup()` always runs,
and its message, when not `None`, is emitted as a progress event. -/
def cleanupEvents (cleanupMsg : Option String) : List Event :=
  Event.cleanupCall ::
    (match cleanupMsg with
     | some m => [Event.progress (cleanupMsgWrap m)]
     | none => [])

/-- One full `GenericFFmpegWorker.run()` call on a job whose
`build_commands()` returned `cmds` and whose `cleanup()` returns
`cleanupMsg`. -/
def workerRun (cmds : List (List String)) (env : Nat → PassEnv)
    (stopAtEnd : Bool) (output_file : String) (cleanupMsg : Option String) :
    List Event :=
  runLoop cmds env 0 cmds.length stopAtEnd output_file ++
    cleanupEvents cleanupMsg

/-- `True` exactly on `error_signal` emissions. -/
def isFailureB : Event → Bool
  | .failure _ => true
  | _ => false

/-- `True` exactly on terminal (`error_signal` / `finished_signal`) emissions. -/
def isTerminalB : Event → Bool
  | .failure _ => true
  | .success _ => true
  | _ => false

/-- `True` exactly on the cleanup invocation. -/
def isCleanupB : Event → Bool
  | .cleanupCall => true
  | _ => false

/-! ## Job state and cleanup (`BaseMediaJob`, main.py lines 18-52) -/

/-- The closed set of job variants, each with the `temp_file_name` state
inherited from `BaseMediaJob` (set by `MergeDemuxerJob.build_commands`,
left `None` by the other variants). -/
inductive MediaJob where
  | mergeDemuxer (file_list : List String) (output_file : String)
      (temp_file_name : Option String)
  | mergeFilter (file_list : List String) (output_file : String)
      (temp_file_name : Option String)
  | recode (cfg : RecodeJob) (temp_file_name : Option String)
  deriving DecidableEq

/-- The `pass_log_prefix` attribute: `BaseMediaJob.__init__` sets it to
`"ffmpeg2pass-log"` and no subclass ever changes it. -/
def MediaJob.pass_log_stem : MediaJob → String := fun _ => "ffmpeg2pass-log"

/-- `self.temp_file_name`. -/
def MediaJob.temp_file_name : MediaJob → Option String
  | .mergeDemuxer _ _ t => t
  | .mergeFilter _ _ t => t
  | .recode _ t => t

/-- Observable result of `BaseMediaJob.cleanup`: the temp file removed (if
any), every path handed to `os.remove` by the log-file loop, and the
returned message. -/
structure CleanupResult where
  tempRemoved : Option String
  logRemovalTargets : List String
  message : Option String
  deriving DecidableEq

/-- `glob(f"{stem}*")` matches exactly the directory entries whose name
starts with `stem`: prefix testing on the character lists. -/
def nameMatchesStem (stem f : String) : Bool :=
  stem.data.isPrefixOf f.data

/-- `BaseMediaJob.cleanup` (main.py lines 35-52).  `tempExists` is
`os.path.exists(self.temp_file_name)`; `cwdFiles` are the directory
entries `glob` sees, so `glob(f"{self.pass_log_prefix}*")` is the filter
by that name prefix; `removeOk f` is whether `os.remove f` succeeds
(an `OSError` is swallowed and produces no message). -/
def MediaJob.cleanup (j : MediaJob) (tempExists : Bool)
    (cwdFiles : List String) (removeOk : String → Bool) : CleanupResult :=
  let tempHit : Bool :=
    match j.temp_file_name with
    | some _ => tempExists
    | none => false
  let tempMsgs : List String :=
    match j.temp_file_name with
    | some t => if tempExists then ["임시 파일 삭제: " ++ t] else []
    | none => []
  let log_files := cwdFiles.filter (fun f => nameMatchesStem j.pass_log_stem f)
  let logMsgs := (log_files.filter removeOk).map
    (fun f => "로그 파일 삭제: " ++ f)
  { tempRemoved := if tempHit then j.temp_file_name else none,
    logRemovalTargets := log_files,
    message :=
      if (tempMsgs ++ logMsgs).isEmpty then none
      else some (String.intercalate "\n" (tempMsgs ++ logMsgs)) }

/-! ## Auxiliary definitions used by the theorems below -/

/-- Every string that can occur as a token of `pass1_cmd`, whatever the
configuration: used to state that the output path is none of them. -/
def RecodeJob.pass1_token_pool (j : RecodeJob) : List String :=
  ["ffmpeg", "-y", "-i", j.input_file, "-c:v", j.v_codec, "-b:v", j.v_bitrate,
   "-preset", j.v_preset, "-vf", "scale=" ++ j.scale,
   "-pass", "1", "-an", "-f", "null", "NUL", "/dev/null"]

/-- Every string that can occur as a token of the single CRF-mode command,
whatever the configuration. -/
def RecodeJob.crf_token_pool (j : RecodeJob) : List String :=
  ["ffmpeg", "-y", "-i", j.input_file, "-c:v", j.v_codec, "-crf", j.v_crf,
   "-preset", j.v_preset, "-c:a", "copy", "libmp3lame", j.a_codec,
   "-q:a", j.a_qscale, "-b:a", j.a_bitrate, "-vf", "scale=" ++ j.scale,
   j.output_file]

/-- Pass-1 assembly order as the spec (§4.3) words it: base invocation,
input, video flags, then the statistics-mode marker, audio-disabled marker,
null-format marker and null sink, then the resize filter. -/
def claimedPass1 (j : RecodeJob) (isWindows : Bool) : List String :=
  j.base_cmd ++ j.video_opts_two_pass ++
    ["-pass", "1", "-an", "-f", "null", null_device isWindows] ++ j.filter_opts

/-- A 2-Pass transcode job with a non-empty resize expression. -/
def c5job : RecodeJob :=
  ⟨"in.mp4", "out.mp4", "libx264", "2-Pass", "23", "medium", "5000k",
   "aac", "ABR", "128k", "4", "1280:-2"⟩

/-- A 2-Pass transcode job with no resize expression. -/
def c2job : RecodeJob :=
  ⟨"in.mp4", "out.mp4", "libx264", "2-Pass", "23", "medium", "5000k",
   "aac", "ABR", "128k", "4", ""⟩

/-- A CRF-mode job whose video codec is `copy`. -/
def c6job : RecodeJob :=
  ⟨"in.mp4", "out.mp4", "copy", "CRF", "23", "medium", "5000k",
   "aac", "ABR", "128k", "4", ""⟩

/-- A CRF-mode libx264 job. -/
def c6okjob : RecodeJob :=
  ⟨"in.mp4", "out.mp4", "libx264", "CRF", "23", "medium", "5000k",
   "aac", "ABR", "128k", "4", ""⟩

/-- A pass whose child succeeds and the stop flag is never seen set. -/
def cleanEnv : PassEnv := ⟨false, [], none, none, 0, false, false, false⟩

/-- A pass whose child exits 1; the stop flag is never seen set. -/
def failEnv : PassEnv := ⟨false, [], none, none, 1, false, false, false⟩

/-- A pass during which the stop flag is set: every read from the
post-wait checks on sees it. -/
def stopEnv : PassEnv := ⟨false, [], none, none, 0, true, true, true⟩

/-! ## Helper lemmas -/

theorem foldl_append_blocks {α β : Type} (g : α → List β) :
    ∀ (l : List α) (init : List β),
      l.foldl (fun acc x => acc ++ g x) init = init ++ l.flatMap g := by
  intro l
  induction l with
  | nil => intro init; simp
  | cons a t ih => intro init; simp [ih, List.append_assoc]

theorem inputArgs_eq_bind (l : List String) :
    MergeFilterJob.inputArgs l = l.flatMap (fun f => ["-i", f]) := by
  simpa using foldl_append_blocks (fun f => ["-i", f]) l []

theorem filterParts_eq_bind (n : Nat) :
    MergeFilterJob.filterParts n =
      (List.range n).flatMap
        (fun i => [MergeFilterJob.videoFilter i, MergeFilterJob.audioFilter i]) := by
  simpa using
    foldl_append_blocks
      (fun i => [MergeFilterJob.videoFilter i, MergeFilterJob.audioFilter i])
      (List.range n) []

theorem filterParts_length (n : Nat) :
    (MergeFilterJob.filterParts n).length = 2 * n := by
  rw [filterParts_eq_bind]
  induction n with
  | zero => rfl
  | succ m ih =>
      rw [List.range_succ]
      simp only [List.flatMap_append, List.length_append, ih]
      simp
      omega

theorem concatInputs_eq_join (n : Nat) :
    MergeFilterJob.concatInputs n =
      String.join ((List.range n).map
        (fun i => "[v" ++ toString i ++ "][a" ++ toString i ++ "]")) := by
  simp [MergeFilterJob.concatInputs, String.join, List.foldl_map]

/-! ## C1: concat-normalize command shape -/

/-- C1: for every concat-normalize (`MergeFilterJob`) job with `n ≥ 2`
inputs, `build_commands` returns exactly one Command Vector; its filter
graph is the `;`-join of `2n + 1` filter steps (one video-normalization and
one audio-normalization step per input, in input order, then one concat
step); the concat step reads the interleaved labels
`[v0][a0][v1][a1]...[v{n-1}][a{n-1}]`; the command has one `-i` flag per
input in input order and selects the output streams with
`-map [v] -map [a]`. -/
theorem mergeFilter_build_commands_spec (file_list : List String)
    (output_file : String) (h : 2 ≤ file_list.length) :
    MergeFilterJob.build_commands file_list output_file =
      [ ["ffmpeg"] ++ (file_list.flatMap fun f => ["-i", f]) ++
        ["-filter_complex", MergeFilterJob.filterString file_list.length,
         "-map", "[v]", "-map", "[a]", "-y",
         "-c:v", "libx264", "-preset", "medium", "-crf", "23",
         "-c:a", "aac", "-b:a", "128k", output_file] ]
    ∧ MergeFilterJob.filterString file_list.length =
        String.intercalate ";"
          ((List.range file_list.length).flatMap
            (fun i => [MergeFilterJob.videoFilter i, MergeFilterJob.audioFilter i])
           ++ [MergeFilterJob.concatFilter file_list.length])
    ∧ (MergeFilterJob.filterParts file_list.length ++
        [MergeFilterJob.concatFilter file_list.length]).length =
          2 * file_list.length + 1
    ∧ MergeFilterJob.concatFilter file_list.length =
        MergeFilterJob.concatInputs file_list.length ++
          "concat=n=" ++ toString file_list.length ++ ":v=1:a=1[v][a]"
    ∧ MergeFilterJob.concatInputs file_list.length =
        String.join ((List.range file_list.length).map
          (fun i => "[v" ++ toString i ++ "][a" ++ toString i ++ "]")) := by
  refine ⟨?_, ?_, ?_, rfl, concatInputs_eq_join _⟩
  · simp [MergeFilterJob.build_commands, inputArgs_eq_bind]
  · rw [MergeFilterJob.filterString, filterParts_eq_bind]
  · simp [filterParts_length]

/-- Witness for C1 at three concrete inputs. -/
theorem mergeFilter_build_commands_spec_witness :
    2 ≤ (["a.mp4", "b.mp4", "c.mp4"] : List String).length ∧
    (MergeFilterJob.build_commands ["a.mp4", "b.mp4", "c.mp4"] "out.mp4" =
      [ ["ffmpeg"] ++ ((["a.mp4", "b.mp4", "c.mp4"] : List String).flatMap fun f => ["-i", f]) ++
        ["-filter_complex", MergeFilterJob.filterString (["a.mp4", "b.mp4", "c.mp4"] : List String).length,
         "-map", "[v]", "-map", "[a]", "-y",
         "-c:v", "libx264", "-preset", "medium", "-crf", "23",
         "-c:a", "aac", "-b:a", "128k", "out.mp4"] ]
    ∧ MergeFilterJob.filterString (["a.mp4", "b.mp4", "c.mp4"] : List String).length =
        String.intercalate ";"
          ((List.range (["a.mp4", "b.mp4", "c.mp4"] : List String).length).flatMap
            (fun i => [MergeFilterJob.videoFilter i, MergeFilterJob.audioFilter i])
           ++ [MergeFilterJob.concatFilter (["a.mp4", "b.mp4", "c.mp4"] : List String).length])
    ∧ (MergeFilterJob.filterParts (["a.mp4", "b.mp4", "c.mp4"] : List String).length ++
        [MergeFilterJob.concatFilter (["a.mp4", "b.mp4", "c.mp4"] : List String).length]).length =
          2 * (["a.mp4", "b.mp4", "c.mp4"] : List String).length + 1
    ∧ MergeFilterJob.concatFilter (["a.mp4", "b.mp4", "c.mp4"] : List String).length =
        MergeFilterJob.concatInputs (["a.mp4", "b.mp4", "c.mp4"] : List String).length ++
          "concat=n=" ++ toString (["a.mp4", "b.mp4", "c.mp4"] : List String).length ++ ":v=1:a=1[v][a]"
    ∧ MergeFilterJob.concatInputs (["a.mp4", "b.mp4", "c.mp4"] : List String).length =
        String.join ((List.range (["a.mp4", "b.mp4", "c.mp4"] : List String).length).map
          (fun i => "[v" ++ toString i ++ "][a" ++ toString i ++ "]"))) :=
  ⟨by decide, mergeFilter_build_commands_spec ["a.mp4", "b.mp4", "c.mp4"] "out.mp4" (by decide)⟩

/-! ## C9: concat-copy list file -/

/-- C9: for every concat-copy (`MergeDemuxerJob`) job, `build_commands`
writes a transient list file with exactly one line per input path, in input
order, each line of the exact form `file '<path>'` with the path's
`os.sep` occurrences replaced by forward slashes, and records that file as
the job's transient artifact (`temp_file_name`). -/
theorem mergeDemuxer_list_file_spec (file_list : List String)
    (output_file osSep tmpName : String) :
    (MergeDemuxerJob.build_commands file_list output_file osSep tmpName).listFileLines =
        file_list.map (fun p => "file " ++ squote ++ p.replace osSep "/" ++ squote)
    ∧ (MergeDemuxerJob.build_commands file_list output_file osSep tmpName).listFileLines.length
        = file_list.length
    ∧ (MergeDemuxerJob.build_commands file_list output_file osSep tmpName).temp_file_name
        = some tmpName := by
  refine ⟨rfl, ?_, rfl⟩
  simp [MergeDemuxerJob.build_commands]

/-! ## Transcode lemmas -/

theorem pass1_cmd_tokens (j : RecodeJob) (w : Bool) :
    j.pass1_cmd w ⊆ j.pass1_token_pool := by
  simp only [RecodeJob.pass1_cmd]
  refine List.append_subset.mpr ⟨List.append_subset.mpr ⟨List.append_subset.mpr
    ⟨?_, ?_⟩, ?_⟩, ?_⟩
  · simp [RecodeJob.base_cmd, RecodeJob.pass1_token_pool, List.cons_subset]
  · simp only [RecodeJob.video_opts_two_pass]
    refine List.append_subset.mpr ⟨List.append_subset.mpr ⟨?_, ?_⟩, ?_⟩
    · simp [RecodeJob.pass1_token_pool, List.cons_subset]
    · split_ifs <;> simp [RecodeJob.pass1_token_pool, List.cons_subset]
    · split_ifs <;> simp [RecodeJob.pass1_token_pool, List.cons_subset]
  · simp only [RecodeJob.filter_opts]
    split_ifs <;> simp [RecodeJob.pass1_token_pool, List.cons_subset]
  · cases w <;> simp [RecodeJob.pass1_token_pool, List.cons_subset, null_device]

theorem output_not_in_pass1 (j : RecodeJob) (w : Bool)
    (hout : j.output_file ∉ j.pass1_token_pool) :
    j.output_file ∉ j.pass1_cmd w :=
  fun hmem => hout (pass1_cmd_tokens j w hmem)

theorem build_commands_two_pass (j : RecodeJob) (w : Bool)
    (hm : j.v_mode = "2-Pass") :
    j.build_commands w = [j.pass1_cmd w, j.pass2_cmd] := by
  rw [RecodeJob.build_commands, hm]
  simp

/-! ## C2: two-pass transcode -/

/-- C2: for every transcode (`RecodeJob`) job with video mode `2-Pass`
whose output path is not literally one of the other pass-1 tokens,
`build_commands` returns exactly two passes; pass 1 ends with the
contiguous tokens `-pass 1 -an -f null` followed by the platform null sink
(`NUL` on Windows, `/dev/null` otherwise) and does not contain the real
output path; pass 2 contains the audio flags and ends with the real output
path; both passes carry the identical `video_opts_two_pass` flags
(codec, `-b:v` bitrate, preset). -/
theorem recode_two_pass_spec (j : RecodeJob) (w : Bool)
    (hm : j.v_mode = "2-Pass")
    (hout : j.output_file ∉ j.pass1_token_pool) :
    j.build_commands w = [j.pass1_cmd w, j.pass2_cmd]
    ∧ (j.build_commands w).length = 2
    ∧ j.pass1_cmd w = j.base_cmd ++ j.video_opts_two_pass ++ j.filter_opts ++
        ["-pass", "1", "-an", "-f", "null", null_device w]
    ∧ j.pass2_cmd = j.base_cmd ++ j.video_opts_two_pass ++ j.audio_opts ++
        j.filter_opts ++ ["-pass", "2", j.output_file]
    ∧ j.output_file ∉ j.pass1_cmd w
    ∧ ∃ pre, j.pass2_cmd = pre ++ [j.output_file] := by
  have hb := build_commands_two_pass j w hm
  refine ⟨hb, by rw [hb]; rfl, rfl, rfl, output_not_in_pass1 j w hout, ?_⟩
  exact ⟨j.base_cmd ++ j.video_opts_two_pass ++ j.audio_opts ++ j.filter_opts ++
    ["-pass", "2"], by simp [RecodeJob.pass2_cmd]⟩

/-- Witness for C2 at a concrete two-pass job. -/
theorem recode_two_pass_spec_witness :
    c2job.v_mode = "2-Pass" ∧ c2job.output_file ∉ c2job.pass1_token_pool ∧
    (c2job.build_commands false = [c2job.pass1_cmd false, c2job.pass2_cmd]
    ∧ (c2job.build_commands false).length = 2
    ∧ c2job.pass1_cmd false = c2job.base_cmd ++ c2job.video_opts_two_pass ++
        c2job.filter_opts ++ ["-pass", "1", "-an", "-f", "null", null_device false]
    ∧ c2job.pass2_cmd = c2job.base_cmd ++ c2job.video_opts_two_pass ++
        c2job.audio_opts ++ c2job.filter_opts ++ ["-pass", "2", c2job.output_file]
    ∧ c2job.output_file ∉ c2job.pass1_cmd false
    ∧ ∃ pre, c2job.pass2_cmd = pre ++ [c2job.output_file]) :=
  ⟨by decide, by decide, recode_two_pass_spec c2job false (by decide) (by decide)⟩

/-! ## C5: per-pass command assembly order -/

/-- C5 counterexample: for a 2-Pass job with a non-empty resize expression,
pass 1 places the resize filter before the statistics-mode marker,
audio-disabled marker, null-format marker and null sink, not after them as
the claim states, so the claimed assembly order is violated. -/
theorem recode_assembly_order_counterexample :
    (RecodeJob.build_commands c5job false).head? = some (RecodeJob.pass1_cmd c5job false)
    ∧ RecodeJob.pass1_cmd c5job false ≠ claimedPass1 c5job false
    ∧ RecodeJob.pass1_cmd c5job false =
        ["ffmpeg", "-y", "-i", "in.mp4", "-c:v", "libx264", "-b:v", "5000k",
         "-preset", "medium", "-vf", "scale=1280:-2",
         "-pass", "1", "-an", "-f", "null", "/dev/null"]
    ∧ claimedPass1 c5job false =
        ["ffmpeg", "-y", "-i", "in.mp4", "-c:v", "libx264", "-b:v", "5000k",
         "-preset", "medium",
         "-pass", "1", "-an", "-f", "null", "/dev/null", "-vf", "scale=1280:-2"] := by
  exact ⟨by decide, by decide, by decide, by decide⟩

/-- C5 (amended): command assembly order per pass is base invocation →
input → video flags → (pass 1 only: resize filter, then statistics-mode
marker, audio-disabled marker, null-format marker, null sink, with the
output path omitted) or (for the single pass and pass 2: audio flags, then
resize filter, then — on pass 2 — the pass-2 marker, then the output
path). -/
theorem recode_assembly_order_amended (j : RecodeJob) (w : Bool)
    (hout : j.output_file ∉ j.pass1_token_pool) :
    (j.v_mode = "CRF" →
      j.build_commands w =
        [j.base_cmd ++ j.video_opts_crf ++ j.audio_opts ++ j.filter_opts ++
          [j.output_file]])
    ∧ (j.v_mode = "2-Pass" →
      j.build_commands w =
        [ j.base_cmd ++ j.video_opts_two_pass ++ j.filter_opts ++
            ["-pass", "1", "-an", "-f", "null", null_device w],
          j.base_cmd ++ j.video_opts_two_pass ++ j.audio_opts ++ j.filter_opts ++
            ["-pass", "2", j.output_file] ]
      ∧ j.output_file ∉ j.pass1_cmd w)
    ∧ (j.v_mode ≠ "CRF" → j.v_mode ≠ "2-Pass" →
      j.build_commands w =
        [j.base_cmd ++ ["-c:v", "copy"] ++ j.audio_opts ++ j.filter_opts ++
          [j.output_file]]) := by
  refine ⟨?_, ?_, ?_⟩
  · intro hm; rw [RecodeJob.build_commands, hm]; simp
  · intro hm
    exact ⟨build_commands_two_pass j w hm, output_not_in_pass1 j w hout⟩
  · intro h1 h2
    rw [RecodeJob.build_commands, if_neg h1, if_neg h2]

/-- Witness for the amended C5 at a concrete two-pass job. -/
theorem recode_assembly_order_amended_witness :
    c5job.output_file ∉ c5job.pass1_token_pool ∧
    ((c5job.v_mode = "CRF" →
      c5job.build_commands false =
        [c5job.base_cmd ++ c5job.video_opts_crf ++ c5job.audio_opts ++
          c5job.filter_opts ++ [c5job.output_file]])
    ∧ (c5job.v_mode = "2-Pass" →
      c5job.build_commands false =
        [ c5job.base_cmd ++ c5job.video_opts_two_pass ++ c5job.filter_opts ++
            ["-pass", "1", "-an", "-f", "null", null_device false],
          c5job.base_cmd ++ c5job.video_opts_two_pass ++ c5job.audio_opts ++
            c5job.filter_opts ++ ["-pass", "2", c5job.output_file] ]
      ∧ c5job.output_file ∉ c5job.pass1_cmd false)
    ∧ (c5job.v_mode ≠ "CRF" → c5job.v_mode ≠ "2-Pass" →
      c5job.build_commands false =
        [c5job.base_cmd ++ ["-c:v", "copy"] ++ c5job.audio_opts ++
          c5job.filter_opts ++ [c5job.output_file]])) :=
  ⟨by decide, recode_assembly_order_amended c5job false (by decide)⟩

/-! ## C6: constant-quality transcode -/

theorem scale_token_ne_bv (x : String) : "scale=" ++ x ≠ "-b:v" := by
  intro h
  have hl : ("scale=" ++ x).length = ("-b:v" : String).length := by rw [h]
  rw [String.length_append] at hl
  have h6 : ("scale=" : String).length = 6 := rfl
  have h4 : ("-b:v" : String).length = 4 := rfl
  omega

set_option maxHeartbeats 800000 in
theorem crf_cmd_tokens (j : RecodeJob) :
    j.base_cmd ++ j.video_opts_crf ++ j.audio_opts ++ j.filter_opts ++
      [j.output_file] ⊆ j.crf_token_pool := by
  refine List.append_subset.mpr ⟨List.append_subset.mpr ⟨List.append_subset.mpr
    ⟨List.append_subset.mpr ⟨?_, ?_⟩, ?_⟩, ?_⟩, ?_⟩
  · simp [RecodeJob.base_cmd, RecodeJob.crf_token_pool, List.cons_subset]
  · simp only [RecodeJob.video_opts_crf]
    split_ifs <;>
      simp [List.append_subset, List.cons_subset, RecodeJob.crf_token_pool]
  · simp only [RecodeJob.audio_opts]
    split_ifs <;>
      simp [List.append_subset, List.cons_subset, RecodeJob.crf_token_pool]
  · simp only [RecodeJob.filter_opts]
    split_ifs <;>
      simp [List.cons_subset, RecodeJob.crf_token_pool]
  · simp [RecodeJob.crf_token_pool, List.cons_subset]

theorem bv_not_in_crf_pool (j : RecodeJob)
    (hb : ("-b:v" : String) ∉ ([j.input_file, j.v_codec, j.v_crf, j.v_preset,
            j.a_codec, j.a_bitrate, j.a_qscale, j.output_file] : List String)) :
    ("-b:v" : String) ∉ j.crf_token_pool := by
  intro hmem
  simp only [List.mem_cons, List.not_mem_nil, or_false] at hb
  push_neg at hb
  simp only [RecodeJob.crf_token_pool, List.mem_cons, List.not_mem_nil,
    or_false] at hmem
  rcases hmem with h | h | h | h | h | h | h | h | h | h |
    h | h | h | h | h | h | h | h | h | h | h <;>
    first
      | exact absurd h (by decide)
      | tauto
      | exact scale_token_ne_bv j.scale h.symm

theorem video_opts_crf_full (j : RecodeJob)
    (hc : j.v_codec = "libx264" ∨ j.v_codec = "libx265")
    (hcrf : j.v_crf ≠ "") (hp : j.v_preset ≠ "") :
    j.video_opts_crf = ["-c:v", j.v_codec, "-crf", j.v_crf, "-preset", j.v_preset] := by
  rcases hc with hc | hc <;> simp [RecodeJob.video_opts_crf, hc, hcrf, hp]

/-- C6 counterexample: a `RecodeJob` with video mode `CRF` but video codec
`copy` produces exactly one pass that contains no `-crf` and no `-preset`
flag, and it does contain a (audio) bitrate flag, so the claim as stated
fails on it. -/
theorem recode_crf_counterexample :
    RecodeJob.build_commands c6job false =
      [["ffmpeg", "-y", "-i", "in.mp4", "-c:v", "copy",
        "-c:a", "aac", "-b:a", "128k", "out.mp4"]]
    ∧ ("-crf" : String) ∉ (["ffmpeg", "-y", "-i", "in.mp4", "-c:v", "copy",
        "-c:a", "aac", "-b:a", "128k", "out.mp4"] : List String)
    ∧ ("-b:a" : String) ∈ (["ffmpeg", "-y", "-i", "in.mp4", "-c:v", "copy",
        "-c:a", "aac", "-b:a", "128k", "out.mp4"] : List String) := by
  exact ⟨by decide, by decide, by decide⟩

/-- C6 (amended): for every transcode (`RecodeJob`) job with video mode
`CRF`, video codec `libx264` or `libx265`, non-empty CRF and preset values,
and an output path/codec/crf/preset/audio configuration none of whose
strings is literally `-b:v`, `build_commands` returns exactly one pass; it
contains the quality-level flag `-crf` with its value and the `-preset`
flag with its value, and contains no video-bitrate flag `-b:v` (the audio
flags may still carry an audio bitrate `-b:a`). -/
theorem recode_crf_spec (j : RecodeJob) (w : Bool)
    (hm : j.v_mode = "CRF")
    (hc : j.v_codec = "libx264" ∨ j.v_codec = "libx265")
    (hcrf : j.v_crf ≠ "") (hp : j.v_preset ≠ "")
    (hb : ("-b:v" : String) ∉ ([j.input_file, j.v_codec, j.v_crf, j.v_preset,
            j.a_codec, j.a_bitrate, j.a_qscale, j.output_file] : List String)) :
    ∃ c, j.build_commands w = [c]
      ∧ c = j.base_cmd ++ ["-c:v", j.v_codec, "-crf", j.v_crf, "-preset", j.v_preset]
            ++ j.audio_opts ++ j.filter_opts ++ [j.output_file]
      ∧ "-crf" ∈ c ∧ "-preset" ∈ c ∧ ("-b:v" : String) ∉ c := by
  have hv := video_opts_crf_full j hc hcrf hp
  refine ⟨j.base_cmd ++ j.video_opts_crf ++ j.audio_opts ++ j.filter_opts ++
    [j.output_file], ?_, by rw [hv], ?_, ?_, ?_⟩
  · rw [RecodeJob.build_commands, hm]; simp
  · rw [hv]; simp [RecodeJob.base_cmd]
  · rw [hv]; simp [RecodeJob.base_cmd]
  · intro hmem
    exact bv_not_in_crf_pool j hb (crf_cmd_tokens j hmem)

/-- Witness for the amended C6 at a concrete CRF job. -/
theorem recode_crf_spec_witness :
    c6okjob.v_mode = "CRF"
    ∧ (c6okjob.v_codec = "libx264" ∨ c6okjob.v_codec = "libx265")
    ∧ c6okjob.v_crf ≠ "" ∧ c6okjob.v_preset ≠ ""
    ∧ ("-b:v" : String) ∉ ([c6okjob.input_file, c6okjob.v_codec, c6okjob.v_crf,
        c6okjob.v_preset, c6okjob.a_codec, c6okjob.a_bitrate, c6okjob.a_qscale,
        c6okjob.output_file] : List String)
    ∧ (∃ c, c6okjob.build_commands false = [c]
      ∧ c = c6okjob.base_cmd ++
          ["-c:v", c6okjob.v_codec, "-crf", c6okjob.v_crf, "-preset", c6okjob.v_preset]
          ++ c6okjob.audio_opts ++ c6okjob.filter_opts ++ [c6okjob.output_file]
      ∧ "-crf" ∈ c ∧ "-preset" ∈ c ∧ ("-b:v" : String) ∉ c) :=
  ⟨by decide, by decide, by decide, by decide, by decide,
   recode_crf_spec c6okjob false (by decide) (by decide) (by decide) (by decide)
     (by decide)⟩

/-! ## Executor lemmas -/

theorem lineEvents_mem {e : Event} {lines : List String}
    (he : e ∈ lineEvents lines) : ∃ s, e = Event.progress s := by
  simp only [lineEvents, List.mem_map] at he
  obtain ⟨l, _, rfl⟩ := he
  exact ⟨l.trim, rfl⟩

theorem launch_not_in_lineEvents (m : Nat) (c : List String)
    (lines : List String) : Event.launch m c ∉ lineEvents lines := by
  intro h
  obtain ⟨s, hs⟩ := lineEvents_mem h
  exact Event.noConfusion hs

theorem lineEvents_countP (p : Event → Bool)
    (hp : ∀ s, p (Event.progress s) = false) (lines : List String) :
    (lineEvents lines).countP p = 0 := by
  rw [List.countP_eq_zero]
  intro e he
  obtain ⟨s, rfl⟩ := lineEvents_mem he
  simp [hp]

theorem lineEvents_countP_failure (lines : List String) :
    (lineEvents lines).countP isFailureB = 0 :=
  lineEvents_countP isFailureB (fun _ => rfl) lines

theorem lineEvents_countP_terminal (lines : List String) :
    (lineEvents lines).countP isTerminalB = 0 :=
  lineEvents_countP isTerminalB (fun _ => rfl) lines

theorem lineEvents_countP_cleanup (lines : List String) :
    (lineEvents lines).countP isCleanupB = 0 :=
  lineEvents_countP isCleanupB (fun _ => rfl) lines

theorem cleanupEvents_countP_failure (cm : Option String) :
    (cleanupEvents cm).countP isFailureB = 0 := by
  cases cm <;> simp [cleanupEvents, isFailureB]

theorem cleanupEvents_countP_terminal (cm : Option String) :
    (cleanupEvents cm).countP isTerminalB = 0 := by
  cases cm <;> simp [cleanupEvents, isTerminalB]

theorem cleanupEvents_countP_cleanup (cm : Option String) :
    (cleanupEvents cm).countP isCleanupB = 1 := by
  cases cm <;> simp [cleanupEvents, isCleanupB]

theorem launch_not_in_cleanupEvents (m : Nat) (c : List String)
    (cm : Option String) : Event.launch m c ∉ cleanupEvents cm := by
  cases cm <;> simp [cleanupEvents]

theorem runPass_clean (cmd : List String) (e : PassEnv) (n total : Nat)
    (hs : e.noStop) (hexc : e.exc = none) (hc : e.exitCode = 0) :
    runPass cmd e n total =
      (Event.progress (passStartMsg n total) :: Event.progress (commandMsg cmd) ::
        Event.launch n cmd :: lineEvents e.lines, true) := by
  obtain ⟨h1, h2, h3, h4, h5⟩ := hs
  simp [runPass, hexc, afterWaitEvents, h3, h4, hc, PassEnv.stopCut, h2]

theorem runPass_fail (cmd : List String) (e : PassEnv) (n total : Nat)
    (hs : e.noStop) (hexc : e.exc = none) (hc : e.exitCode ≠ 0) :
    runPass cmd e n total =
      (Event.progress (passStartMsg n total) :: Event.progress (commandMsg cmd) ::
        Event.launch n cmd ::
          (lineEvents e.lines ++ [Event.failure (failMsg n e.exitCode)]),
       false) := by
  obtain ⟨h1, h2, h3, h4, h5⟩ := hs
  simp [runPass, hexc, afterWaitEvents, h3, h4, hc, PassEnv.stopCut, h2]

theorem runLoop_cons_clean (cmd : List String) (rest : List (List String))
    (env : Nat → PassEnv) (i total : Nat) (s : Bool) (o : String)
    (h : (env i).clean) :
    runLoop (cmd :: rest) env i total s o =
      Event.progress (passStartMsg (i + 1) total) ::
      Event.progress (commandMsg cmd) ::
      Event.launch (i + 1) cmd ::
        (lineEvents (env i).lines ++ runLoop rest env (i + 1) total s o) := by
  obtain ⟨hs, hexc, hc⟩ := h
  simp only [runLoop, hs.1, Bool.false_eq_true, if_false,
    runPass_clean cmd (env i) (i + 1) total hs hexc hc]
  simp

theorem runLoop_cons_fail (cmd : List String) (rest : List (List String))
    (env : Nat → PassEnv) (i total : Nat) (s : Bool) (o : String)
    (hs : (env i).noStop) (hexc : (env i).exc = none)
    (hc : (env i).exitCode ≠ 0) :
    runLoop (cmd :: rest) env i total s o =
      Event.progress (passStartMsg (i + 1) total) ::
      Event.progress (commandMsg cmd) ::
      Event.launch (i + 1) cmd ::
        (lineEvents (env i).lines ++
          [Event.failure (failMsg (i + 1) ((env i).exitCode))]) := by
  simp only [runLoop, hs.1, Bool.false_eq_true, if_false,
    runPass_fail cmd (env i) (i + 1) total hs hexc hc]

theorem runLoop_fail_spec (cmds : List (List String)) (env : Nat → PassEnv) :
    ∀ (i k total : Nat) (s : Bool) (o : String),
      k < cmds.length →
      (∀ j, j < k → (env (i + j)).clean) →
      (env (i + k)).noStop → (env (i + k)).exc = none →
      (env (i + k)).exitCode ≠ 0 →
      (runLoop cmds env i total s o).countP isFailureB = 1
      ∧ Event.failure (failMsg (i + k + 1) ((env (i + k)).exitCode)) ∈
          runLoop cmds env i total s o
      ∧ (∀ m c, Event.launch m c ∈ runLoop cmds env i total s o →
          m ≤ i + k + 1) := by
  induction cmds with
  | nil =>
      intro i k total s o hk
      exact absurd hk (by simp)
  | cons cmd rest ih =>
      intro i k total s o hk hclean hs hexc hc
      cases k with
      | zero =>
          simp only [Nat.add_zero] at hs hexc hc
          rw [runLoop_cons_fail cmd rest env i total s o hs hexc hc]
          refine ⟨?_, ?_, ?_⟩
          · simp [List.countP_cons, List.countP_append, isFailureB,
              lineEvents_countP_failure]
          · simp
          · intro m c hm
            simp only [List.mem_cons, List.mem_append] at hm
            rcases hm with h | h | h | h | h
            · exact Event.noConfusion h
            · exact Event.noConfusion h
            · obtain ⟨rfl, -⟩ := Event.launch.inj h; omega
            · exact absurd h (launch_not_in_lineEvents m c _)
            · simp at h
      | succ k' =>
          have h0 : (env i).clean := by
            simpa using hclean 0 (Nat.succ_pos k')
          rw [runLoop_cons_clean cmd rest env i total s o h0]
          have e1 : i + 1 + k' = i + (k' + 1) := by omega
          have hrec := ih (i + 1) k' total s o (by simpa using hk)
            (fun j hj => by
              have := hclean (j + 1) (by omega)
              rwa [show i + 1 + j = i + (j + 1) by omega])
            (by rwa [e1]) (by rwa [e1]) (by rwa [e1])
          rw [e1] at hrec
          obtain ⟨hcnt, hmem, hlaunch⟩ := hrec
          refine ⟨?_, ?_, ?_⟩
          · simp [List.countP_cons, List.countP_append, isFailureB,
              lineEvents_countP_failure, hcnt]
          · simp only [List.mem_cons, List.mem_append]
            exact Or.inr (Or.inr (Or.inr (Or.inr hmem)))
          · intro m c hm
            simp only [List.mem_cons, List.mem_append] at hm
            rcases hm with h | h | h | h | h
            · exact Event.noConfusion h
            · exact Event.noConfusion h
            · obtain ⟨rfl, -⟩ := Event.launch.inj h; omega
            · exact absurd h (launch_not_in_lineEvents m c _)
            · have := hlaunch m c h; omega

/-- C3: for every executor run in which the first `k` passes complete
cleanly, pass `k` (0-based; reported as pass `k + 1`) exits with a
non-zero code, and the stop flag is never observed set, the run emits
exactly one failure event, that event carries pass number `k + 1` and the
pass's exit code, and no Command Vector for any later pass is ever
launched (every launch event has pass number at most `k + 1`). -/
theorem executor_failure_short_circuit (cmds : List (List String))
    (env : Nat → PassEnv) (stopAtEnd : Bool) (output_file : String)
    (cleanupMsg : Option String) (k : Nat)
    (hk : k < cmds.length)
    (hclean : ∀ j, j < k → (env j).clean)
    (hs : (env k).noStop) (hexc : (env k).exc = none)
    (hc : (env k).exitCode ≠ 0) :
    (workerRun cmds env stopAtEnd output_file cleanupMsg).countP isFailureB = 1
    ∧ Event.failure (failMsg (k + 1) ((env k).exitCode)) ∈
        workerRun cmds env stopAtEnd output_file cleanupMsg
    ∧ (∀ m c, Event.launch m c ∈
        workerRun cmds env stopAtEnd output_file cleanupMsg → m ≤ k + 1) := by
  have h := runLoop_fail_spec cmds env 0 k cmds.length stopAtEnd output_file hk
    (by simpa using hclean) (by simpa using hs) (by simpa using hexc)
    (by simpa using hc)
  simp only [Nat.zero_add] at h
  obtain ⟨hcnt, hmem, hlaunch⟩ := h
  refine ⟨?_, ?_, ?_⟩
  · rw [workerRun, List.countP_append, hcnt, cleanupEvents_countP_failure]
  · rw [workerRun]
    exact List.mem_append.mpr (Or.inl hmem)
  · intro m c hm
    rcases List.mem_append.mp hm with h | h
    · exact hlaunch m c h
    · exact absurd h (launch_not_in_cleanupEvents m c _)

/-- Witness for C3: a single pass that exits 1 with the stop flag unset. -/
theorem executor_failure_short_circuit_witness :
    0 < ([["ffmpeg"]] : List (List String)).length ∧
    ((workerRun [["ffmpeg"]] (fun _ => failEnv) false "out.mp4" none).countP
        isFailureB = 1
    ∧ Event.failure (failMsg (0 + 1) (((fun _ => failEnv) 0 : PassEnv).exitCode)) ∈
        workerRun [["ffmpeg"]] (fun _ => failEnv) false "out.mp4" none
    ∧ (∀ m c, Event.launch m c ∈
        workerRun [["ffmpeg"]] (fun _ => failEnv) false "out.mp4" none →
          m ≤ 0 + 1)) :=
  ⟨by decide,
   executor_failure_short_circuit [["ffmpeg"]] (fun _ => failEnv) false "out.mp4"
     none 0 (by decide) (fun j hj => absurd hj (by omega))
     ⟨rfl, rfl, rfl, rfl, rfl⟩ rfl (by decide)⟩

theorem runPass_stopped (cmd : List String) (e : PassEnv) (n total : Nat)
    (h1 : e.stopAtRcCheck = true) (h2 : e.stopAtFinalCheck = true)
    (h3 : e.stopAtExcCheck = true) :
    ((runPass cmd e n total).1).countP isFailureB = 0
    ∧ (runPass cmd e n total).2 = false
    ∧ (∀ m c, Event.launch m c ∈ (runPass cmd e n total).1 → m = n) := by
  have haw : afterWaitEvents e n = ([Event.progress (stoppedMsg n)], false) := by
    simp [afterWaitEvents, h1, h2]
  rcases hexc : e.exc with _ | ⟨ep, msg⟩
  · have hval : runPass cmd e n total =
        (Event.progress (passStartMsg n total) :: Event.progress (commandMsg cmd) ::
          Event.launch n cmd ::
            (lineEvents (e.lines.take e.stopCut) ++
              [Event.progress (stoppedMsg n)]), false) := by
      simp [runPass, hexc, haw]
    rw [hval]
    refine ⟨?_, rfl, ?_⟩
    · simp [List.countP_cons, List.countP_append, isFailureB,
        lineEvents_countP_failure]
    · intro m c hm
      simp only [List.mem_cons, List.mem_append, List.mem_singleton,
        List.not_mem_nil, or_false] at hm
      rcases hm with h | h | h | h | h
      · exact Event.noConfusion h
      · exact Event.noConfusion h
      · exact (Event.launch.inj h).1
      · exact absurd h (launch_not_in_lineEvents m c _)
      · exact Event.noConfusion h
  · cases ep with
    | atLaunch =>
        have hval : runPass cmd e n total =
            ([Event.progress (passStartMsg n total),
              Event.progress (commandMsg cmd)], false) := by
          simp [runPass, hexc, excTail, h3]
        rw [hval]
        refine ⟨?_, rfl, ?_⟩
        · simp [List.countP_cons, isFailureB]
        · intro m c hm
          simp only [List.mem_cons, List.not_mem_nil, or_false] at hm
          rcases hm with h | h
          · exact Event.noConfusion h
          · exact Event.noConfusion h
    | atRead j =>
        by_cases hcond : j ≤ e.stopCut ∧ j ≤ e.lines.length
        · have hval : runPass cmd e n total =
              (Event.progress (passStartMsg n total) ::
                Event.progress (commandMsg cmd) :: Event.launch n cmd ::
                lineEvents (e.lines.take j), false) := by
            simp [runPass, hexc, excTail, h3, if_pos hcond]
          rw [hval]
          refine ⟨?_, rfl, ?_⟩
          · simp [List.countP_cons, isFailureB, lineEvents_countP_failure]
          · intro m c hm
            simp only [List.mem_cons] at hm
            rcases hm with h | h | h | h
            · exact Event.noConfusion h
            · exact Event.noConfusion h
            · exact (Event.launch.inj h).1
            · exact absurd h (launch_not_in_lineEvents m c _)
        · have hval : runPass cmd e n total =
              (Event.progress (passStartMsg n total) ::
                Event.progress (commandMsg cmd) :: Event.launch n cmd ::
                (lineEvents (e.lines.take e.stopCut) ++
                  [Event.progress (stoppedMsg n)]), false) := by
            simp [runPass, hexc, if_neg hcond, haw]
          rw [hval]
          refine ⟨?_, rfl, ?_⟩
          · simp [List.countP_cons, List.countP_append, isFailureB,
              lineEvents_countP_failure]
          · intro m c hm
            simp only [List.mem_cons, List.mem_append, List.mem_singleton,
              List.not_mem_nil, or_false] at hm
            rcases hm with h | h | h | h | h
            · exact Event.noConfusion h
            · exact Event.noConfusion h
            · exact (Event.launch.inj h).1
            · exact absurd h (launch_not_in_lineEvents m c _)
            · exact Event.noConfusion h

theorem runLoop_stop_spec (cmds : List (List String)) (env : Nat → PassEnv) :
    ∀ (i k total : Nat) (s : Bool) (o : String),
      k < cmds.length →
      (∀ j, j < k → (env (i + j)).clean) →
      (env (i + k)).stopAtRcCheck = true →
      (env (i + k)).stopAtFinalCheck = true →
      (env (i + k)).stopAtExcCheck = true →
      (runLoop cmds env i total s o).countP isFailureB = 0
      ∧ (∀ m c, Event.launch m c ∈ runLoop cmds env i total s o →
          m ≤ i + k + 1) := by
  induction cmds with
  | nil =>
      intro i k total s o hk
      exact absurd hk (by simp)
  | cons cmd rest ih =>
      intro i k total s o hk hclean h1 h2 h3
      cases k with
      | zero =>
          simp only [Nat.add_zero] at h1 h2 h3
          by_cases hl : (env i).stopAtLoopHead = true
          · have hval : runLoop (cmd :: rest) env i total s o =
                if s then [] else [Event.success (doneMsg o)] := by
              simp only [runLoop, hl, if_true]
            rw [hval]
            constructor
            · cases s <;> simp [isFailureB]
            · intro m c hm
              cases s <;> simp at hm
          · have hp := runPass_stopped cmd (env i) (i + 1) total h1 h2 h3
            have hval : runLoop (cmd :: rest) env i total s o =
                (runPass cmd (env i) (i + 1) total).1 := by
              simp only [runLoop, hl, Bool.false_eq_true, if_false]
              simp only [hp.2.1, Bool.false_eq_true, if_false]
            rw [hval]
            refine ⟨hp.1, ?_⟩
            intro m c hm
            have := hp.2.2 m c hm
            omega
      | succ k' =>
          have h0 : (env i).clean := by
            simpa using hclean 0 (Nat.succ_pos k')
          rw [runLoop_cons_clean cmd rest env i total s o h0]
          have e1 : i + 1 + k' = i + (k' + 1) := by omega
          have hrec := ih (i + 1) k' total s o (by simpa using hk)
            (fun j hj => by
              have := hclean (j + 1) (by omega)
              rwa [show i + 1 + j = i + (j + 1) by omega])
            (by rwa [e1]) (by rwa [e1]) (by rwa [e1])
          obtain ⟨hcnt, hlaunch⟩ := hrec
          refine ⟨?_, ?_⟩
          · simp [List.countP_cons, List.countP_append, isFailureB,
              lineEvents_countP_failure, hcnt]
          · intro m c hm
            simp only [List.mem_cons, List.mem_append] at hm
            rcases hm with h | h | h | h | h
            · exact Event.noConfusion h
            · exact Event.noConfusion h
            · obtain ⟨rfl, -⟩ := Event.launch.inj h; omega
            · exact absurd h (launch_not_in_lineEvents m c _)
            · have := hlaunch m c h; omega

/-- C7: for every executor run whose first `k` passes complete cleanly and
during whose pass `k` (0-based) the stop flag is observed set at the
post-wait checks (i.e. cancellation was signaled before pass `k`
completed), no Command Vector for pass `k + 1` or any later pass is ever
launched (every launch event has pass number at most `k + 1`), and the
stopped run is not reported as an error: no failure event is emitted at
all. -/
theorem executor_cancellation_invariant (cmds : List (List String))
    (env : Nat → PassEnv) (stopAtEnd : Bool) (output_file : String)
    (cleanupMsg : Option String) (k : Nat)
    (hk : k < cmds.length)
    (hclean : ∀ j, j < k → (env j).clean)
    (h1 : (env k).stopAtRcCheck = true)
    (h2 : (env k).stopAtFinalCheck = true)
    (h3 : (env k).stopAtExcCheck = true) :
    (workerRun cmds env stopAtEnd output_file cleanupMsg).countP isFailureB = 0
    ∧ (∀ m c, Event.launch m c ∈
        workerRun cmds env stopAtEnd output_file cleanupMsg → m ≤ k + 1) := by
  have h := runLoop_stop_spec cmds env 0 k cmds.length stopAtEnd output_file hk
    (by simpa using hclean) (by simpa using h1) (by simpa using h2)
    (by simpa using h3)
  simp only [Nat.zero_add] at h
  obtain ⟨hcnt, hlaunch⟩ := h
  refine ⟨?_, ?_⟩
  · rw [workerRun, List.countP_append, hcnt, cleanupEvents_countP_failure]
  · intro m c hm
    rcases List.mem_append.mp hm with h | h
    · exact hlaunch m c h
    · exact absurd h (launch_not_in_cleanupEvents m c _)

/-- Witness for C7: a single pass during which the stop flag is observed. -/
theorem executor_cancellation_invariant_witness :
    0 < ([["ffmpeg"]] : List (List String)).length ∧
    ((workerRun [["ffmpeg"]] (fun _ => stopEnv) true "out.mp4" none).countP
        isFailureB = 0
    ∧ (∀ m c, Event.launch m c ∈
        workerRun [["ffmpeg"]] (fun _ => stopEnv) true "out.mp4" none →
          m ≤ 0 + 1)) :=
  ⟨by decide,
   executor_cancellation_invariant [["ffmpeg"]] (fun _ => stopEnv) true "out.mp4"
     none 0 (by decide) (fun j hj => absurd hj (by omega)) rfl rfl rfl⟩

theorem excTail_countP_cleanup (b : Bool) (m : String) :
    (excTail b m).countP isCleanupB = 0 := by
  rw [excTail]; split_ifs <;> simp [isCleanupB]

theorem afterWaitEvents_countP_cleanup (e : PassEnv) (n : Nat) :
    ((afterWaitEvents e n).1).countP isCleanupB = 0 := by
  rw [afterWaitEvents]; split_ifs <;> simp [isCleanupB]

theorem runPass_no_cleanup (cmd : List String) (e : PassEnv) (n total : Nat) :
    ((runPass cmd e n total).1).countP isCleanupB = 0 := by
  rcases hexc : e.exc with _ | ⟨_ | j, msg⟩ <;>
    simp only [runPass, hexc] <;>
    (try split_ifs) <;>
    simp [List.countP_cons, List.countP_append, isCleanupB,
      lineEvents_countP_cleanup, afterWaitEvents_countP_cleanup,
      excTail_countP_cleanup]

theorem runLoop_no_cleanup (cmds : List (List String)) (env : Nat → PassEnv) :
    ∀ (i total : Nat) (s : Bool) (o : String),
      (runLoop cmds env i total s o).countP isCleanupB = 0 := by
  induction cmds with
  | nil =>
      intro i total s o
      simp only [runLoop]
      split_ifs <;> simp [isCleanupB]
  | cons cmd rest ih =>
      intro i total s o
      simp only [runLoop]
      split_ifs <;>
        simp [List.countP_append, runPass_no_cleanup, ih, isCleanupB]

/-- C4: for every executor run of any job — whatever the exit codes,
output, exceptions, stop-flag history and cleanup result — the job's
cleanup is invoked exactly once, after the last pass attempt (the run's
event list contains exactly one cleanup invocation, contributed by the
`finally` block). -/
theorem executor_cleanup_exactly_once (cmds : List (List String))
    (env : Nat → PassEnv) (stopAtEnd : Bool) (output_file : String)
    (cleanupMsg : Option String) :
    (workerRun cmds env stopAtEnd output_file cleanupMsg).countP isCleanupB
      = 1 := by
  rw [workerRun, List.countP_append,
    runLoop_no_cleanup cmds env 0 cmds.length stopAtEnd output_file,
    cleanupEvents_countP_cleanup]

theorem afterWaitEvents_cases (e : PassEnv) (n : Nat) :
    afterWaitEvents e n = ([], true)
    ∨ afterWaitEvents e n = ([Event.failure (failMsg n e.exitCode)], false)
    ∨ afterWaitEvents e n = ([Event.progress (stoppedMsg n)], false) := by
  rw [afterWaitEvents]; split_ifs <;> simp

theorem excTail_cases (b : Bool) (m : String) :
    excTail b m = [] ∨ excTail b m = [Event.failure (excMsg m)] := by
  rw [excTail]; split_ifs <;> simp

theorem countP_terminal_head (cmd : List String) (n total : Nat)
    (lines : List String) :
    (Event.progress (passStartMsg n total) :: Event.progress (commandMsg cmd) ::
      Event.launch n cmd :: lineEvents lines).countP isTerminalB = 0 := by
  simp [List.countP_cons, isTerminalB, lineEvents_countP_terminal]

theorem runPass_shape (cmd : List String) (e : PassEnv) (n total : Nat) :
    ∃ P T, (runPass cmd e n total).1 = P ++ T
      ∧ P.countP isTerminalB = 0
      ∧ (T = [] ∨ (∃ m, T = [Event.failure m]) ∨ (∃ s, T = [Event.progress s]))
      ∧ ((runPass cmd e n total).2 = true → T = []) := by
  rcases hexc : e.exc with _ | ⟨ep, msg⟩
  · have hval1 : (runPass cmd e n total).1 =
        (Event.progress (passStartMsg n total) :: Event.progress (commandMsg cmd) ::
          Event.launch n cmd :: lineEvents (e.lines.take e.stopCut)) ++
          (afterWaitEvents e n).1 := by
      simp [runPass, hexc]
    have hval2 : (runPass cmd e n total).2 = (afterWaitEvents e n).2 := by
      simp [runPass, hexc]
    refine ⟨_, (afterWaitEvents e n).1, hval1, countP_terminal_head cmd n total _,
      ?_, ?_⟩
    · rcases afterWaitEvents_cases e n with haw | haw | haw <;> rw [haw]
      · left; rfl
      · right; left; exact ⟨_, rfl⟩
      · right; right; exact ⟨_, rfl⟩
    · intro ht
      rw [hval2] at ht
      rcases afterWaitEvents_cases e n with haw | haw | haw <;>
        rw [haw] at ht ⊢ <;> simp_all
  · cases ep with
    | atLaunch =>
        have hval1 : (runPass cmd e n total).1 =
            [Event.progress (passStartMsg n total),
             Event.progress (commandMsg cmd)] ++ excTail e.stopAtExcCheck msg := by
          simp [runPass, hexc]
        have hval2 : (runPass cmd e n total).2 = false := by
          simp [runPass, hexc]
        refine ⟨_, excTail e.stopAtExcCheck msg, hval1, by simp [isTerminalB], ?_, ?_⟩
        · rcases excTail_cases e.stopAtExcCheck msg with het | het <;> rw [het]
          · left; rfl
          · right; left; exact ⟨_, rfl⟩
        · intro ht; rw [hval2] at ht; simp at ht
    | atRead j =>
        by_cases hcond : j ≤ e.stopCut ∧ j ≤ e.lines.length
        · have hval1 : (runPass cmd e n total).1 =
              (Event.progress (passStartMsg n total) ::
                Event.progress (commandMsg cmd) :: Event.launch n cmd ::
                lineEvents (e.lines.take j)) ++ excTail e.stopAtExcCheck msg := by
            simp [runPass, hexc, if_pos hcond]
          have hval2 : (runPass cmd e n total).2 = false := by
            simp [runPass, hexc, if_pos hcond]
          refine ⟨_, excTail e.stopAtExcCheck msg, hval1,
            countP_terminal_head cmd n total _, ?_, ?_⟩
          · rcases excTail_cases e.stopAtExcCheck msg with het | het <;> rw [het]
            · left; rfl
            · right; left; exact ⟨_, rfl⟩
          · intro ht; rw [hval2] at ht; simp at ht
        · have hval1 : (runPass cmd e n total).1 =
              (Event.progress (passStartMsg n total) ::
                Event.progress (commandMsg cmd) :: Event.launch n cmd ::
                lineEvents (e.lines.take e.stopCut)) ++
                (afterWaitEvents e n).1 := by
            simp [runPass, hexc, if_neg hcond]
          have hval2 : (runPass cmd e n total).2 = (afterWaitEvents e n).2 := by
            simp [runPass, hexc, if_neg hcond]
          refine ⟨_, (afterWaitEvents e n).1, hval1,
            countP_terminal_head cmd n total _, ?_, ?_⟩
          · rcases afterWaitEvents_cases e n with haw | haw | haw <;> rw [haw]
            · left; rfl
            · right; left; exact ⟨_, rfl⟩
            · right; right; exact ⟨_, rfl⟩
          · intro ht
            rw [hval2] at ht
            rcases afterWaitEvents_cases e n with haw | haw | haw <;>
              rw [haw] at ht ⊢ <;> simp_all

theorem runLoop_terminal (cmds : List (List String)) (env : Nat → PassEnv) :
    ∀ (i total : Nat) (s : Bool) (o : String),
      (runLoop cmds env i total s o).countP isTerminalB = 0
      ∨ ∃ pre t, runLoop cmds env i total s o = pre ++ [t]
          ∧ isTerminalB t = true ∧ pre.countP isTerminalB = 0 := by
  induction cmds with
  | nil =>
      intro i total s o
      simp only [runLoop]
      split_ifs
      · left; simp
      · right; exact ⟨[], Event.success (doneMsg o), by simp, rfl, rfl⟩
  | cons cmd rest ih =>
      intro i total s o
      simp only [runLoop]
      split_ifs with hl hs h2
      · left; simp
      · right; exact ⟨[], Event.success (doneMsg o), by simp, rfl, rfl⟩
      · obtain ⟨P, T, hPT, hP, hT, hTtrue⟩ := runPass_shape cmd (env i) (i + 1) total
        have hTe := hTtrue h2
        subst hTe
        rcases ih (i + 1) total s o with hrec | ⟨pre, t, hpre, htt, hcnt⟩
        · left
          simp [hPT, List.countP_append, hP, hrec]
        · right
          refine ⟨(runPass cmd (env i) (i + 1) total).1 ++ pre, t, ?_, htt, ?_⟩
          · rw [hpre, List.append_assoc]
          · simp [hPT, List.countP_append, hP, hcnt]
      · obtain ⟨P, T, hPT, hP, hT, hTtrue⟩ := runPass_shape cmd (env i) (i + 1) total
        rcases hT with rfl | ⟨m, rfl⟩ | ⟨sm, rfl⟩
        · left; simp [hPT, List.countP_append, hP]
        · right; exact ⟨P, Event.failure m, hPT, rfl, hP⟩
        · left
          simp [hPT, List.countP_append, List.countP_cons, hP, isTerminalB]

/-- C8 counterexample: a run that succeeds and whose cleanup returns a
message emits its terminal (success) event and then still emits the
cleanup progress report, so the terminal event is not the last event of
the run, refuting the claim as stated. -/
theorem executor_terminal_counterexample :
    Event.success (doneMsg "out.mp4") ∈
      workerRun [["ffmpeg"]] (fun _ => cleanEnv) false "out.mp4" (some "x")
    ∧ isTerminalB (Event.success (doneMsg "out.mp4")) = true
    ∧ (workerRun [["ffmpeg"]] (fun _ => cleanEnv) false "out.mp4"
        (some "x")).getLast? = some (Event.progress (cleanupMsgWrap "x"))
    ∧ isTerminalB (Event.progress (cleanupMsgWrap "x")) = false := by
  exact ⟨by decide, rfl, by decide, rfl⟩

/-- C8 (amended): for every executor run that ends in success or failure
(its event list contains a terminal event), exactly one terminal event is
emitted — never two — and the only events emitted after it are the
`finally`-block cleanup invocation and its optional progress report; no
terminal event follows it. -/
theorem executor_single_terminal (cmds : List (List String))
    (env : Nat → PassEnv) (stopAtEnd : Bool) (output_file : String)
    (cleanupMsg : Option String)
    (h : (workerRun cmds env stopAtEnd output_file cleanupMsg).countP
      isTerminalB ≠ 0) :
    (workerRun cmds env stopAtEnd output_file cleanupMsg).countP isTerminalB = 1
    ∧ ∃ pre t, isTerminalB t = true
        ∧ workerRun cmds env stopAtEnd output_file cleanupMsg =
            pre ++ t :: cleanupEvents cleanupMsg
        ∧ pre.countP isTerminalB = 0
        ∧ (cleanupEvents cleanupMsg).countP isTerminalB = 0 := by
  rcases runLoop_terminal cmds env 0 cmds.length stopAtEnd output_file with
    h0 | ⟨pre, t, hpre, htt, hcnt⟩
  · exfalso
    apply h
    rw [workerRun, List.countP_append, h0, cleanupEvents_countP_terminal]
  · constructor
    · rw [workerRun, List.countP_append, hpre, List.countP_append, hcnt,
        cleanupEvents_countP_terminal]
      simp [List.countP_cons, htt]
    · refine ⟨pre, t, htt, ?_, hcnt, cleanupEvents_countP_terminal _⟩
      rw [workerRun, hpre, List.append_assoc]
      rfl

/-- Witness for the amended C8 at a concrete successful run. -/
theorem executor_single_terminal_witness :
    (workerRun [["ffmpeg"]] (fun _ => cleanEnv) false "out.mp4" none).countP
      isTerminalB ≠ 0
    ∧ ((workerRun [["ffmpeg"]] (fun _ => cleanEnv) false "out.mp4" none).countP
        isTerminalB = 1
      ∧ ∃ pre t, isTerminalB t = true
          ∧ workerRun [["ffmpeg"]] (fun _ => cleanEnv) false "out.mp4" none =
              pre ++ t :: cleanupEvents none
          ∧ pre.countP isTerminalB = 0
          ∧ (cleanupEvents none).countP isTerminalB = 0) :=
  ⟨by decide,
   executor_single_terminal [["ffmpeg"]] (fun _ => cleanEnv) false "out.mp4"
     none (by decide)⟩

/-! ## C10: cleanup removes every matching log file for every variant -/

/-- C10: for every job variant (both merge variants included, with any
`temp_file_name` state) and every snapshot of the working directory,
cleanup attempts to remove every file whose name begins with the fixed
prefix `ffmpeg2pass-log` — the `pass_log_prefix` attribute is set once by
`BaseMediaJob.__init__` and never overridden — regardless of whether that
variant's pass sequence could ever have created such files. -/
theorem cleanup_targets_all_log_files (j : MediaJob) (tempExists : Bool)
    (cwdFiles : List String) (removeOk : String → Bool) (f : String)
    (hf : f ∈ cwdFiles) (hpre : nameMatchesStem "ffmpeg2pass-log" f = true) :
    f ∈ (j.cleanup tempExists cwdFiles removeOk).logRemovalTargets := by
  have hstem : j.pass_log_stem = "ffmpeg2pass-log" := rfl
  simp only [MediaJob.cleanup]
  exact List.mem_filter.mpr ⟨hf, by rw [hstem]; exact hpre⟩

/-- Witness for C10 at a concrete merge-variant job, which never runs a
two-pass encode yet still targets the log file. -/
theorem cleanup_targets_all_log_files_witness :
    "ffmpeg2pass-log-0.log" ∈ (["ffmpeg2pass-log-0.log", "a.txt"] : List String)
    ∧ nameMatchesStem "ffmpeg2pass-log" "ffmpeg2pass-log-0.log" = true
    ∧ "ffmpeg2pass-log-0.log" ∈
        ((MediaJob.mergeDemuxer ["a.mp4", "b.mp4"] "out.mp4" none).cleanup false
          ["ffmpeg2pass-log-0.log", "a.txt"] (fun _ => true)).logRemovalTargets :=
  ⟨by decide, by decide,
   cleanup_targets_all_log_files
     (MediaJob.mergeDemuxer ["a.mp4", "b.mp4"] "out.mp4" none) false
     ["ffmpeg2pass-log-0.log", "a.txt"] (fun _ => true) "ffmpeg2pass-log-0.log"
     (by decide) (by decide)⟩

end VideoEditor
